import Mathlib

/-!
Verification of the fuzzy record-matching engine of a HAL-to-Hugo
publication updater (source: `src/local_publications.js`).

The engine compares one remote ("target") HAL publication against a list of
local ("candidate") publications, using exact-identifier short-circuit rules
(HAL id modulo a trailing version suffix, DOI) and fuzzy sub-measures
(title, authors, date) fused by an arithmetic mean with the author signal
counted twice.

Modelling conventions:
- JavaScript numbers are modelled by `ℚ` for the string-based similarity
  values and by `ℝ` once the exponential date decay enters; `NaN` (which in
  the source only arises as a "not computable" sentinel that the fusion
  filter removes) is modelled as `Option.none`.
- JavaScript string truthiness (`undefined`/`""` falsy) is modelled by
  explicit `Option`/emptiness tests.
- The Levenshtein distance (delegated by the source to the `js-levenshtein`
  library, whose contract is the standard unit-cost edit distance) is
  modelled by the textbook recurrence.
- Host date parsing (`new Date(string)`) is modelled on its ISO
  `YYYY-MM-DD` subset: such strings parse to a day number (UTC midnight),
  anything else is unparseable (an Invalid Date, i.e. `NaN` arithmetic,
  in the source).
-/

/-- Unit-cost Levenshtein edit distance, inner recursion on the second
list. `levAux x f ys` computes the distance between `x :: xs` and `ys`
where `f` is the distance function of `xs`. -/
def levAux (x : Char) (f : List Char → ℕ) : List Char → ℕ
  | [] => f [] + 1
  | y :: ys =>
    min (f ys + (if x = y then 0 else 1))
      (min (f (y :: ys) + 1) (levAux x f ys + 1))

/-- Unit-cost Levenshtein edit distance between two character lists
(models the `js-levenshtein` library used by `stringSimilarity`). -/
def lev : List Char → List Char → ℕ
  | [], ys => ys.length
  | x :: xs, ys => levAux x (lev xs) ys

theorem lev_nil_left (ys : List Char) : lev [] ys = ys.length := rfl

theorem lev_nil_right : ∀ xs : List Char, lev xs [] = xs.length
  | [] => rfl
  | x :: xs => by
    show levAux x (lev xs) [] = (x :: xs).length
    show lev xs [] + 1 = xs.length + 1
    rw [lev_nil_right xs]

theorem lev_cons_cons (x y : Char) (xs ys : List Char) :
    lev (x :: xs) (y :: ys) =
      min (lev xs ys + (if x = y then 0 else 1))
        (min (lev xs (y :: ys) + 1) (lev (x :: xs) ys + 1)) := rfl

theorem lev_self : ∀ xs : List Char, lev xs xs = 0
  | [] => rfl
  | x :: xs => by
    rw [lev_cons_cons]
    simp [lev_self xs]

theorem lev_symm_fuel :
    ∀ (n : ℕ) (xs ys : List Char), xs.length + ys.length ≤ n →
      lev xs ys = lev ys xs := by
  intro n
  induction n with
  | zero =>
    intro xs ys h
    match xs, ys with
    | [], [] => rfl
    | x :: xs, _ => simp at h
    | [], y :: ys => simp at h
  | succ n ih =>
    intro xs ys h
    match xs, ys with
    | [], ys => rw [lev_nil_left, lev_nil_right]
    | x :: xs, [] => rw [lev_nil_left, lev_nil_right]
    | x :: xs, y :: ys =>
      have h1 : xs.length + ys.length ≤ n := by
        simp only [List.length_cons] at h; omega
      have h2 : xs.length + (y :: ys).length ≤ n := by
        simp only [List.length_cons] at h ⊢; omega
      have h3 : (x :: xs).length + ys.length ≤ n := by
        simp only [List.length_cons] at h ⊢; omega
      rw [lev_cons_cons, lev_cons_cons, ih xs ys h1, ih xs (y :: ys) h2,
        ih (x :: xs) ys h3]
      have hc : (if x = y then 0 else 1) = (if y = x then 0 else 1) := by
        by_cases hxy : x = y <;> simp [hxy, eq_comm]
      rw [hc, Nat.min_comm (lev (y :: ys) xs + 1) (lev ys (x :: xs) + 1)]

theorem lev_symm (xs ys : List Char) : lev xs ys = lev ys xs :=
  lev_symm_fuel (xs.length + ys.length) xs ys le_rfl

theorem lev_le_max_fuel :
    ∀ (n : ℕ) (xs ys : List Char), xs.length + ys.length ≤ n →
      lev xs ys ≤ max xs.length ys.length := by
  intro n
  induction n with
  | zero =>
    intro xs ys h
    match xs, ys with
    | [], [] => simp [lev]
    | x :: xs, _ => simp at h
    | [], y :: ys => simp at h
  | succ n ih =>
    intro xs ys h
    match xs, ys with
    | [], ys => rw [lev_nil_left]; simp
    | x :: xs, [] => rw [lev_nil_right]; simp
    | x :: xs, y :: ys =>
      have h1 : xs.length + ys.length ≤ n := by
        simp only [List.length_cons] at h; omega
      have hb := ih xs ys h1
      rw [lev_cons_cons]
      have hmin :
          min (lev xs ys + (if x = y then 0 else 1))
            (min (lev xs (y :: ys) + 1) (lev (x :: xs) ys + 1)) ≤
            lev xs ys + 1 := by
        by_cases hxy : x = y <;> simp [hxy]
      simp only [List.length_cons]
      omega

/-- Strip a trailing version marker, a letter `v` followed by one or more
digits at the end of the string (models `s.replace(/v\d+$/, '')` in
`haveSameHalID`): e.g. `hal-000111v2` becomes `hal-000111`. -/
def stripVersion (s : String) : String :=
  let rcs := s.toList.reverse
  let digits := rcs.takeWhile (fun c => c.isDigit)
  let rest := rcs.dropWhile (fun c => c.isDigit)
  match digits, rest with
  | [], _ => s
  | _ :: _, 'v' :: rest2 => String.mk rest2.reverse
  | _ :: _, _ => s

/-- Gregorian leap-year test. -/
def isLeapYear (y : ℕ) : Bool :=
  y % 4 = 0 && (y % 100 ≠ 0 || y % 400 = 0)

/-- Number of days of month `m` (1..12) in year `y`. -/
def daysInMonth (y m : ℕ) : ℕ :=
  if m = 2 then (if isLeapYear y then 29 else 28)
  else if m = 4 ∨ m = 6 ∨ m = 9 ∨ m = 11 then 30
  else 31

/-- Days of year `y` that precede the first day of month `m` (1..12). -/
def daysBeforeMonth (y m : ℕ) : ℕ :=
  [0, 0, 31, 59, 90, 120, 151, 181, 212, 243, 273, 304, 334].getD m 0 +
    (if 2 < m ∧ isLeapYear y then 1 else 0)

/-- Day number of the civil date `y-m-d` counted from the Unix epoch
1970-01-01 (what the host date value divided by 86 400 000 ms yields for a
UTC-midnight date). -/
def daysFromCivil (y m d : ℕ) : ℤ :=
  (((365 * y + (y + 3) / 4 + (y + 399) / 400 + daysBeforeMonth y m + (d - 1) : ℕ)) : ℤ) -
    (((y + 99) / 100 : ℕ) : ℤ) - 719528

/-- Parse a date string. Models the ISO `YYYY-MM-DD` subset of the host
platform's `new Date(string)` parsing used by `computeDateSimilarity`:
a well-formed in-range ISO day yields its day number since the epoch,
anything else yields `none` (an Invalid Date in the source, whose
arithmetic produces `NaN`). -/
def parseDate (s : String) : Option ℤ :=
  match s.toList with
  | [y1, y2, y3, y4, s1, m1, m2, s2, d1, d2] =>
    if s1 = '-' ∧ s2 = '-' ∧ y1.isDigit ∧ y2.isDigit ∧ y3.isDigit ∧
        y4.isDigit ∧ m1.isDigit ∧ m2.isDigit ∧ d1.isDigit ∧ d2.isDigit then
      let y := 1000 * (y1.toNat - 48) + 100 * (y2.toNat - 48) +
        10 * (y3.toNat - 48) + (y4.toNat - 48)
      let m := 10 * (m1.toNat - 48) + (m2.toNat - 48)
      let d := 10 * (d1.toNat - 48) + (d2.toNat - 48)
      if 1 ≤ m ∧ m ≤ 12 ∧ 1 ≤ d ∧ d ≤ daysInMonth y m then
        some (daysFromCivil y m d)
      else none
    else none
  | _ => none

/-- A remote HAL publication, restricted to the fields the matching engine
reads: `halId_s`, `doiId_s`, `title_s` (a single string or one title per
language), `authors_t`, `publicationDate_s`. A missing field is `none`;
JavaScript treats the empty string as falsy, which the similarity
definitions below test explicitly. -/
structure TargetRecord where
  halId_s : Option String
  doiId_s : Option String
  title_s : Option (String ⊕ List String)
  authors_t : Option (List String)
  publicationDate_s : Option String

/-- A local (existing) publication, restricted to the fields the matching
engine reads: `hal`, `doi`, `title`, `authors`, `date`. -/
structure CandidateRecord where
  hal : Option String
  doi : Option String
  title : Option String
  authors : Option (List String)
  date : Option String

/-- Compare the HAL ids of a target and a candidate: both are stripped of
an optional trailing version suffix, and the result is true when the
stripped target id is truthy (non-empty) and equal to the stripped
candidate id (source: `haveSameHalID`). -/
def haveSameHalID (target : TargetRecord) (candidate : CandidateRecord) : Bool :=
  match target.halId_s.map stripVersion with
  | none => false
  | some s => decide (s ≠ "" ∧ candidate.hal.map stripVersion = some s)

/-- Compare the DOIs of a target and a candidate: true when the target DOI
is present (`!= null`, so the empty string passes) and strictly equal to
the candidate DOI (source: `haveSameDOI`). -/
def haveSameDOI (target : TargetRecord) (candidate : CandidateRecord) : Bool :=
  match target.doiId_s with
  | none => false
  | some s => decide (candidate.doi = some s)

/-- Normalized Levenshtein similarity value
`1 - distance / max(len str1, len str2)` (source: `stringSimilarity`,
numeric value; when both strings are empty the source divides `0/0` and
the result is `NaN`, see `stringSimilarity` below). -/
def simQ (str1 str2 : String) : ℚ :=
  1 - ((lev str1.toList str2.toList : ℚ) / ((max str1.length str2.length : ℕ) : ℚ))

/-- String-similarity primitive (source: `stringSimilarity`): the number
`1 - levenshtein(str1, str2) / max(len str1, len str2)`, which is `NaN`
(modelled `none`) exactly when both strings are empty. -/
def stringSimilarity (str1 str2 : String) : Option ℚ :=
  if str1 = "" ∧ str2 = "" then none else some (simQ str1 str2)

/-- Title similarity (source: `computeTitleSimilarity`): `NaN` (`none`)
when either side's title is falsy (absent or the empty string, an array
being always truthy); for an array of language variants, the maximum of
the per-language similarities with fold seed `0`; otherwise the plain
string similarity. In the array branch the candidate title is known to be
non-empty, so each `stringSimilarity` value is a number, `simQ`. -/
def computeTitleSimilarity (target : TargetRecord) (candidate : CandidateRecord) :
    Option ℚ :=
  match target.title_s, candidate.title with
  | some halTitle, some ct =>
    if ct = "" then none
    else
      match halTitle with
      | Sum.inl s => if s = "" then none else stringSimilarity s ct
      | Sum.inr langs =>
        some ((langs.map (fun lang => simQ lang ct)).foldl max 0)
  | _, _ => none

/-- Authors similarity (source: `computeAuthorsSimilarity`): each side's
author list is joined with `", "`; if either side is absent or joins to
the empty string the result is `NaN` (`none`), otherwise the string
similarity of the two joined strings. -/
def computeAuthorsSimilarity (target : TargetRecord) (candidate : CandidateRecord) :
    Option ℚ :=
  match target.authors_t, candidate.authors with
  | some ta, some ca =>
    let tj := String.intercalate ", " ta
    let cj := String.intercalate ", " ca
    if tj = "" ∨ cj = "" then none else some (simQ tj cj)
  | _, _ => none

/-- Date similarity (source: `computeDateSimilarity`): `NaN` (`none`) when
either date field is absent or the empty string, or when either date
string fails to parse (an Invalid Date whose subtraction yields `NaN`);
otherwise `exp(-|difference_in_days| / 150)`. -/
noncomputable def computeDateSimilarity (target : TargetRecord)
    (candidate : CandidateRecord) : Option ℝ :=
  match target.publicationDate_s, candidate.date with
  | some ts, some cs =>
    if ts = "" ∨ cs = "" then none
    else
      match parseDate ts, parseDate cs with
      | some d1, some d2 =>
        some (Real.exp (-(((d2 - d1).natAbs : ℝ)) / 150))
      | _, _ => none
  | _, _ => none

/-- The four sub-measure slots the fusion collects, in source order:
title similarity, authors similarity, date similarity, and the authors
similarity a second time (`[titleSimilarity, authorsSimilarity,
dateSimilarity, authorsSimilarity]` in `findCorrespondingPublication`). -/
noncomputable def measures (target : TargetRecord) (candidate : CandidateRecord) :
    List (Option ℝ) :=
  [(computeTitleSimilarity target candidate).map (fun (q : ℚ) => (q : ℝ)),
   (computeAuthorsSimilarity target candidate).map (fun (q : ℚ) => (q : ℝ)),
   computeDateSimilarity target candidate,
   (computeAuthorsSimilarity target candidate).map (fun (q : ℚ) => (q : ℝ))]

/-- The computable (non-missing, non-`NaN`) sub-measure values, in order
(source: `validMeasures`, the filter keeping `measure != null &&
!isNaN(measure)`). -/
noncomputable def validMeasures (target : TargetRecord) (candidate : CandidateRecord) :
    List ℝ :=
  (measures target candidate).filterMap id

/-- Fused confidence of one candidate (source: the `confidence` local in
`findCorrespondingPublication`): the sum of the valid measures divided by
their count. When no measure is computable the source divides `0/0`,
getting `NaN`, modelled as `none`. -/
noncomputable def fusedConfidence (target : TargetRecord) (candidate : CandidateRecord) :
    Option ℝ :=
  let vm := validMeasures target candidate
  if vm.isEmpty then none else some (vm.foldl (fun a b => a + b) 0 / (vm.length : ℝ))

/-- Result of the matching engine: the best candidate (or `none`) and its
confidence score. -/
structure MatchResult where
  best : Option CandidateRecord
  confidence : ℝ

open Classical in
/-- Loop of `findCorrespondingPublication`, with the running
`best_candidate` and `best_confidence` as explicit accumulators
(initially `null` and `0.0`). A candidate with the same HAL id or the
same DOI is returned at once with confidence `1.0`; otherwise the running
pair is updated exactly when the fused confidence is a number strictly
greater than the running confidence (`NaN > best_confidence` is false in
the source, so a `none` fused confidence never updates). -/
noncomputable def findAux (target : TargetRecord) :
    List CandidateRecord → Option CandidateRecord → ℝ → MatchResult
  | [], b, conf => ⟨b, conf⟩
  | candidate :: rest, b, conf =>
    if haveSameHalID target candidate then ⟨some candidate, 1⟩
    else if haveSameDOI target candidate then ⟨some candidate, 1⟩
    else
      match fusedConfidence target candidate with
      | none => findAux target rest b conf
      | some x =>
        if conf < x then findAux target rest (some candidate) x
        else findAux target rest b conf

/-- The matching engine (source: `findCorrespondingPublication`): find
the local publication that best matches a target HAL publication. -/
noncomputable def findCorrespondingPublication (target : TargetRecord)
    (existing : List CandidateRecord) : MatchResult :=
  findAux target existing none 0

theorem string_length_eq_zero_iff (s : String) : s.length = 0 ↔ s = "" := by
  cases s with
  | mk data =>
    cases data with
    | nil => simp
    | cons c cs =>
      constructor
      · intro h; simp [String.length] at h
      · intro h
        have := congrArg String.data h
        simp at this

theorem string_toList_length (s : String) : s.toList.length = s.length := rfl

theorem simQ_self (s : String) : simQ s s = 1 := by
  unfold simQ
  rw [lev_self]
  simp

theorem simQ_range (str1 str2 : String) (h : str1 ≠ "" ∨ str2 ≠ "") :
    0 ≤ simQ str1 str2 ∧ simQ str1 str2 ≤ 1 := by
  have hM : 0 < max str1.length str2.length := by
    rcases h with h | h
    · have := (not_iff_not.mpr (string_length_eq_zero_iff str1)).mpr h
      omega
    · have := (not_iff_not.mpr (string_length_eq_zero_iff str2)).mpr h
      omega
  have hMq : 0 < ((max str1.length str2.length : ℕ) : ℚ) := by exact_mod_cast hM
  have hlev : lev str1.toList str2.toList ≤ max str1.length str2.length := by
    have := lev_le_max_fuel (str1.toList.length + str2.toList.length)
      str1.toList str2.toList le_rfl
    rwa [string_toList_length, string_toList_length] at this
  have hdiv0 : 0 ≤ ((lev str1.toList str2.toList : ℚ) /
      ((max str1.length str2.length : ℕ) : ℚ)) :=
    div_nonneg (by positivity) (le_of_lt hMq)
  have hdiv1 : ((lev str1.toList str2.toList : ℚ) /
      ((max str1.length str2.length : ℕ) : ℚ)) ≤ 1 := by
    rw [div_le_one hMq]
    exact_mod_cast hlev
  unfold simQ
  constructor <;> linarith

theorem foldl_max_bounds :
    ∀ (l : List ℚ) (acc : ℚ), 0 ≤ acc → acc ≤ 1 →
      (∀ q ∈ l, 0 ≤ q ∧ q ≤ 1) →
      0 ≤ l.foldl max acc ∧ l.foldl max acc ≤ 1 := by
  intro l
  induction l with
  | nil => intro acc h0 h1 _; exact ⟨h0, h1⟩
  | cons q l ih =>
    intro acc h0 h1 hl
    have hq := hl q (List.mem_cons_self q l)
    simp only [List.foldl_cons]
    exact ih (max acc q) (le_max_of_le_left h0) (max_le h1 hq.2)
      (fun x hx => hl x (List.mem_cons_of_mem q hx))


theorem computeTitleSimilarity_range (target : TargetRecord)
    (candidate : CandidateRecord) (q : ℚ)
    (h : computeTitleSimilarity target candidate = some q) : 0 ≤ q ∧ q ≤ 1 := by
  cases htt : target.title_s with
  | none =>
    simp only [computeTitleSimilarity, htt] at h
    exact Option.noConfusion h
  | some halTitle =>
    cases hct : candidate.title with
    | none =>
      simp only [computeTitleSimilarity, htt, hct] at h
      exact Option.noConfusion h
    | some ct =>
      cases halTitle with
      | inl s =>
        simp only [computeTitleSimilarity, htt, hct] at h
        by_cases hce : ct = ""
        · simp [hce] at h
        · rw [if_neg hce] at h
          by_cases hse : s = ""
          · simp [hse] at h
          · rw [if_neg hse] at h
            unfold stringSimilarity at h
            rw [if_neg (by tauto)] at h
            rw [← Option.some.inj h]
            exact simQ_range s ct (Or.inr hce)
      | inr langs =>
        simp only [computeTitleSimilarity, htt, hct] at h
        by_cases hce : ct = ""
        · simp [hce] at h
        · rw [if_neg hce] at h
          rw [← Option.some.inj h]
          apply foldl_max_bounds _ 0 le_rfl zero_le_one
          intro x hx
          simp only [List.mem_map] at hx
          obtain ⟨lang, _, rfl⟩ := hx
          exact simQ_range lang ct (Or.inr hce)

theorem computeAuthorsSimilarity_range (target : TargetRecord)
    (candidate : CandidateRecord) (q : ℚ)
    (h : computeAuthorsSimilarity target candidate = some q) : 0 ≤ q ∧ q ≤ 1 := by
  cases hta : target.authors_t with
  | none =>
    simp only [computeAuthorsSimilarity, hta] at h
    exact Option.noConfusion h
  | some ta =>
    cases hca : candidate.authors with
    | none =>
      simp only [computeAuthorsSimilarity, hta, hca] at h
      exact Option.noConfusion h
    | some ca =>
      simp only [computeAuthorsSimilarity, hta, hca] at h
      by_cases he : String.intercalate ", " ta = "" ∨ String.intercalate ", " ca = ""
      · rw [if_pos he] at h; simp at h
      · rw [if_neg he] at h
        rw [← Option.some.inj h]
        push_neg at he
        exact simQ_range _ _ (Or.inl he.1)

theorem computeDateSimilarity_range (target : TargetRecord)
    (candidate : CandidateRecord) (r : ℝ)
    (h : computeDateSimilarity target candidate = some r) : 0 < r ∧ r ≤ 1 := by
  cases htd : target.publicationDate_s with
  | none =>
    simp only [computeDateSimilarity, htd] at h
    exact Option.noConfusion h
  | some ts =>
    cases hcd : candidate.date with
    | none =>
      simp only [computeDateSimilarity, htd, hcd] at h
      exact Option.noConfusion h
    | some cs =>
      simp only [computeDateSimilarity, htd, hcd] at h
      by_cases he : ts = "" ∨ cs = ""
      · rw [if_pos he] at h; simp at h
      · rw [if_neg he] at h
        cases hp1 : parseDate ts with
        | none => rw [hp1] at h; simp at h
        | some d1 =>
          cases hp2 : parseDate cs with
          | none => rw [hp1, hp2] at h; simp at h
          | some d2 =>
            rw [hp1, hp2] at h
            simp only at h
            rw [← Option.some.inj h]
            refine ⟨Real.exp_pos _, ?_⟩
            rw [Real.exp_le_one_iff]
            have hnn : (0 : ℝ) ≤ (((d2 - d1).natAbs : ℝ)) / 150 := by positivity
            linarith

theorem validMeasures_range (target : TargetRecord) (candidate : CandidateRecord) :
    ∀ r ∈ validMeasures target candidate, 0 ≤ r ∧ r ≤ 1 := by
  intro r hr
  unfold validMeasures measures at hr
  rw [List.mem_filterMap] at hr
  obtain ⟨o, ho, hid⟩ := hr
  simp only [id] at hid
  subst hid
  simp only [List.mem_cons, List.not_mem_nil, or_false] at ho
  rcases ho with h | h | h | h
  · have h2 := h.symm
    rw [Option.map_eq_some'] at h2
    obtain ⟨q, hq, hcast⟩ := h2
    have hb := computeTitleSimilarity_range target candidate q hq
    rw [← hcast]
    exact ⟨by exact_mod_cast hb.1, by exact_mod_cast hb.2⟩
  · have h2 := h.symm
    rw [Option.map_eq_some'] at h2
    obtain ⟨q, hq, hcast⟩ := h2
    have hb := computeAuthorsSimilarity_range target candidate q hq
    rw [← hcast]
    exact ⟨by exact_mod_cast hb.1, by exact_mod_cast hb.2⟩
  · have hb := computeDateSimilarity_range target candidate r h.symm
    exact ⟨le_of_lt hb.1, hb.2⟩
  · have h2 := h.symm
    rw [Option.map_eq_some'] at h2
    obtain ⟨q, hq, hcast⟩ := h2
    have hb := computeAuthorsSimilarity_range target candidate q hq
    rw [← hcast]
    exact ⟨by exact_mod_cast hb.1, by exact_mod_cast hb.2⟩

theorem foldl_add_shift (l : List ℝ) (a : ℝ) :
    l.foldl (fun x y => x + y) a = a + l.foldl (fun x y => x + y) 0 := by
  induction l generalizing a with
  | nil => simp
  | cons x l ih =>
    simp only [List.foldl_cons]
    rw [ih (a + x), ih (0 + x)]
    ring

theorem foldl_add_nonneg (l : List ℝ) (h : ∀ x ∈ l, 0 ≤ x) :
    0 ≤ l.foldl (fun x y => x + y) 0 := by
  induction l with
  | nil => simp
  | cons x l ih =>
    simp only [List.foldl_cons]
    rw [foldl_add_shift]
    have hx := h x (List.mem_cons_self x l)
    have hl := ih (fun y hy => h y (List.mem_cons_of_mem x hy))
    linarith

theorem foldl_add_le_length (l : List ℝ) (h : ∀ x ∈ l, x ≤ 1) :
    l.foldl (fun x y => x + y) 0 ≤ (l.length : ℝ) := by
  induction l with
  | nil => simp
  | cons x l ih =>
    simp only [List.foldl_cons, List.length_cons]
    rw [foldl_add_shift]
    have hx := h x (List.mem_cons_self x l)
    have hl := ih (fun y hy => h y (List.mem_cons_of_mem x hy))
    push_cast
    linarith

theorem fusedConfidence_range (target : TargetRecord) (candidate : CandidateRecord)
    (x : ℝ) (h : fusedConfidence target candidate = some x) : 0 ≤ x ∧ x ≤ 1 := by
  unfold fusedConfidence at h
  by_cases hvm : (validMeasures target candidate).isEmpty
  · rw [if_pos hvm] at h
    exact Option.noConfusion h
  · rw [if_neg hvm] at h
    have hx := Option.some.inj h
    have hlen : 0 < (validMeasures target candidate).length := by
      cases hl : validMeasures target candidate with
      | nil => rw [hl] at hvm; simp at hvm
      | cons a l => simp [hl]
    have hlenR : 0 < ((validMeasures target candidate).length : ℝ) := by
      exact_mod_cast hlen
    have hnn : 0 ≤ (validMeasures target candidate).foldl (fun a b => a + b) 0 :=
      foldl_add_nonneg _ (fun y hy => (validMeasures_range target candidate y hy).1)
    have hle : (validMeasures target candidate).foldl (fun a b => a + b) 0 ≤
        ((validMeasures target candidate).length : ℝ) :=
      foldl_add_le_length _ (fun y hy => (validMeasures_range target candidate y hy).2)
    rw [← hx]
    constructor
    · exact div_nonneg hnn (le_of_lt hlenR)
    · rw [div_le_one hlenR]
      exact hle

theorem findAux_nil (target : TargetRecord) (b : Option CandidateRecord) (conf : ℝ) :
    findAux target [] b conf = ⟨b, conf⟩ := rfl

open Classical in
theorem findAux_cons (target : TargetRecord) (c : CandidateRecord)
    (rest : List CandidateRecord) (b : Option CandidateRecord) (conf : ℝ) :
    findAux target (c :: rest) b conf =
      if haveSameHalID target c then ⟨some c, 1⟩
      else if haveSameDOI target c then ⟨some c, 1⟩
      else
        match fusedConfidence target c with
        | none => findAux target rest b conf
        | some x =>
          if conf < x then findAux target rest (some c) x
          else findAux target rest b conf := rfl

theorem findAux_cons_fire (target : TargetRecord) (c : CandidateRecord)
    (rest : List CandidateRecord) (b : Option CandidateRecord) (conf : ℝ)
    (h : haveSameHalID target c = true ∨ haveSameDOI target c = true) :
    findAux target (c :: rest) b conf = ⟨some c, 1⟩ := by
  rw [findAux_cons]
  by_cases h1 : haveSameHalID target c = true
  · rw [if_pos h1]
  · rw [if_neg h1, if_pos (h.resolve_left h1)]

theorem findAux_cons_skip (target : TargetRecord) (c : CandidateRecord)
    (rest : List CandidateRecord) (b : Option CandidateRecord) (conf : ℝ)
    (h1 : haveSameHalID target c = false) (h2 : haveSameDOI target c = false)
    (h3 : fusedConfidence target c = none) :
    findAux target (c :: rest) b conf = findAux target rest b conf := by
  rw [findAux_cons, if_neg (by simp [h1]), if_neg (by simp [h2]), h3]

open Classical in
theorem findAux_cons_valid (target : TargetRecord) (c : CandidateRecord)
    (rest : List CandidateRecord) (b : Option CandidateRecord) (conf x : ℝ)
    (h1 : haveSameHalID target c = false) (h2 : haveSameDOI target c = false)
    (h3 : fusedConfidence target c = some x) :
    findAux target (c :: rest) b conf =
      if conf < x then findAux target rest (some c) x
      else findAux target rest b conf := by
  rw [findAux_cons, if_neg (by simp [h1]), if_neg (by simp [h2]), h3]

theorem findAux_skip_all (target : TargetRecord) :
    ∀ (l : List CandidateRecord) (b : Option CandidateRecord) (conf : ℝ),
      (∀ c ∈ l, haveSameHalID target c = false ∧ haveSameDOI target c = false ∧
        fusedConfidence target c = none) →
      findAux target l b conf = ⟨b, conf⟩ := by
  intro l
  induction l with
  | nil => intro b conf _; exact findAux_nil target b conf
  | cons c rest ih =>
    intro b conf h
    have hc := h c (List.mem_cons_self c rest)
    rw [findAux_cons_skip target c rest b conf hc.1 hc.2.1 hc.2.2]
    exact ih b conf (fun x hx => h x (List.mem_cons_of_mem c hx))

theorem findAux_fire_first (target : TargetRecord) :
    ∀ (l1 : List CandidateRecord) (c : CandidateRecord) (l2 : List CandidateRecord)
      (b : Option CandidateRecord) (conf : ℝ),
      (∀ c2 ∈ l1, haveSameHalID target c2 = false ∧ haveSameDOI target c2 = false) →
      (haveSameHalID target c = true ∨ haveSameDOI target c = true) →
      findAux target (l1 ++ c :: l2) b conf = ⟨some c, 1⟩ := by
  intro l1
  induction l1 with
  | nil =>
    intro c l2 b conf _ hfire
    exact findAux_cons_fire target c l2 b conf hfire
  | cons c1 l1 ih =>
    intro c l2 b conf h hfire
    have hc1 := h c1 (List.mem_cons_self c1 l1)
    have hrest : ∀ c2 ∈ l1, haveSameHalID target c2 = false ∧
        haveSameDOI target c2 = false :=
      fun c2 hc2 => h c2 (List.mem_cons_of_mem c1 hc2)
    rw [List.cons_append]
    cases hfc : fusedConfidence target c1 with
    | none =>
      rw [findAux_cons_skip target c1 _ b conf hc1.1 hc1.2 hfc]
      exact ih c l2 b conf hrest hfire
    | some x =>
      rw [findAux_cons_valid target c1 _ b conf x hc1.1 hc1.2 hfc]
      by_cases hlt : conf < x
      · rw [if_pos hlt]
        exact ih c l2 (some c1) x hrest hfire
      · rw [if_neg hlt]
        exact ih c l2 b conf hrest hfire

theorem findAux_append (target : TargetRecord) :
    ∀ (l1 l2 : List CandidateRecord) (b : Option CandidateRecord) (conf : ℝ),
      (∀ c ∈ l1, haveSameHalID target c = false ∧ haveSameDOI target c = false) →
      findAux target (l1 ++ l2) b conf =
        findAux target l2 (findAux target l1 b conf).best
          (findAux target l1 b conf).confidence := by
  intro l1
  induction l1 with
  | nil => intro l2 b conf _; rfl
  | cons c1 l1 ih =>
    intro l2 b conf h
    have hc1 := h c1 (List.mem_cons_self c1 l1)
    have hrest : ∀ c2 ∈ l1, haveSameHalID target c2 = false ∧
        haveSameDOI target c2 = false :=
      fun c2 hc2 => h c2 (List.mem_cons_of_mem c1 hc2)
    rw [List.cons_append]
    cases hfc : fusedConfidence target c1 with
    | none =>
      rw [findAux_cons_skip target c1 _ b conf hc1.1 hc1.2 hfc,
        findAux_cons_skip target c1 _ b conf hc1.1 hc1.2 hfc]
      exact ih l2 b conf hrest
    | some x =>
      rw [findAux_cons_valid target c1 _ b conf x hc1.1 hc1.2 hfc,
        findAux_cons_valid target c1 _ b conf x hc1.1 hc1.2 hfc]
      by_cases hlt : conf < x
      · rw [if_pos hlt, if_pos hlt]
        exact ih l2 (some c1) x hrest
      · rw [if_neg hlt, if_neg hlt]
        exact ih l2 b conf hrest

theorem findAux_inv (target : TargetRecord) :
    ∀ (l : List CandidateRecord) (b : Option CandidateRecord) (conf : ℝ),
      0 ≤ conf → conf ≤ 1 → (b = none ↔ conf = 0) →
      (0 ≤ (findAux target l b conf).confidence ∧
        (findAux target l b conf).confidence ≤ 1 ∧
        ((findAux target l b conf).best = none ↔
          (findAux target l b conf).confidence = 0)) := by
  intro l
  induction l with
  | nil =>
    intro b conf h0 h1 hb
    rw [findAux_nil]
    exact ⟨h0, h1, hb⟩
  | cons c rest ih =>
    intro b conf h0 h1 hb
    by_cases hfire : haveSameHalID target c = true ∨ haveSameDOI target c = true
    · rw [findAux_cons_fire target c rest b conf hfire]
      refine ⟨zero_le_one, le_refl 1, ?_⟩
      constructor
      · intro hx; exact Option.noConfusion hx
      · intro hx; exact absurd hx one_ne_zero
    · push_neg at hfire
      have hh1 : haveSameHalID target c = false := by
        cases hha : haveSameHalID target c
        · rfl
        · exact absurd hha hfire.1
      have hh2 : haveSameDOI target c = false := by
        cases hhd : haveSameDOI target c
        · rfl
        · exact absurd hhd hfire.2
      cases hfc : fusedConfidence target c with
      | none =>
        rw [findAux_cons_skip target c rest b conf hh1 hh2 hfc]
        exact ih b conf h0 h1 hb
      | some x =>
        rw [findAux_cons_valid target c rest b conf x hh1 hh2 hfc]
        by_cases hlt : conf < x
        · rw [if_pos hlt]
          have hxr := fusedConfidence_range target c x hfc
          have hxpos : x ≠ 0 := by linarith
          apply ih (some c) x hxr.1 hxr.2
          constructor
          · intro hsome; exact Option.noConfusion hsome
          · intro h0x; exact absurd h0x hxpos
        · rw [if_neg hlt]
          exact ih b conf h0 h1 hb

theorem findAux_fire_exists (target : TargetRecord) :
    ∀ (l : List CandidateRecord) (b : Option CandidateRecord) (conf : ℝ),
      (∃ c ∈ l, haveSameHalID target c = true ∨ haveSameDOI target c = true) →
      (findAux target l b conf).confidence = 1 := by
  intro l
  induction l with
  | nil => intro b conf h; simp at h
  | cons c rest ih =>
    intro b conf h
    by_cases hfire : haveSameHalID target c = true ∨ haveSameDOI target c = true
    · rw [findAux_cons_fire target c rest b conf hfire]
    · push_neg at hfire
      have hh1 : haveSameHalID target c = false := by
        cases hha : haveSameHalID target c
        · rfl
        · exact absurd hha hfire.1
      have hh2 : haveSameDOI target c = false := by
        cases hhd : haveSameDOI target c
        · rfl
        · exact absurd hhd hfire.2
      obtain ⟨c2, hc2, hc2f⟩ := h
      have hc2rest : c2 ∈ rest := by
        rcases List.mem_cons.mp hc2 with rfl | hmem
        · exact absurd hc2f (by rw [hh1, hh2]; rintro (h | h) <;> exact Bool.noConfusion h)
        · exact hmem
      have hrest : ∃ c3 ∈ rest, haveSameHalID target c3 = true ∨
          haveSameDOI target c3 = true := ⟨c2, hc2rest, hc2f⟩
      cases hfc : fusedConfidence target c with
      | none =>
        rw [findAux_cons_skip target c rest b conf hh1 hh2 hfc]
        exact ih b conf hrest
      | some x =>
        rw [findAux_cons_valid target c rest b conf x hh1 hh2 hfc]
        by_cases hlt : conf < x
        · rw [if_pos hlt]; exact ih (some c) x hrest
        · rw [if_neg hlt]; exact ih b conf hrest

theorem haveSameHalID_iff (target : TargetRecord) (candidate : CandidateRecord) :
    haveSameHalID target candidate = true ↔
      ∃ s s2, target.halId_s = some s ∧ candidate.hal = some s2 ∧
        stripVersion s ≠ "" ∧ stripVersion s = stripVersion s2 := by
  cases hh : target.halId_s with
  | none =>
    simp only [haveSameHalID, hh, Option.map_none']
    constructor
    · intro h; exact Bool.noConfusion h
    · rintro ⟨s, s2, hs, _⟩; exact Option.noConfusion hs
  | some s =>
    simp only [haveSameHalID, hh, Option.map_some', decide_eq_true_eq]
    constructor
    · rintro ⟨hne, hmap⟩
      rw [Option.map_eq_some'] at hmap
      obtain ⟨s2, hs2, hstrip⟩ := hmap
      exact ⟨s, s2, rfl, hs2, hne, hstrip.symm⟩
    · rintro ⟨s3, s2, hs3, hs2, hne, heq⟩
      have hss : s3 = s := (Option.some.inj hs3).symm
      subst hss
      refine ⟨hne, ?_⟩
      rw [Option.map_eq_some']
      exact ⟨s2, hs2, heq.symm⟩

theorem haveSameDOI_iff (target : TargetRecord) (candidate : CandidateRecord) :
    haveSameDOI target candidate = true ↔
      ∃ d, target.doiId_s = some d ∧ candidate.doi = some d := by
  cases hd : target.doiId_s with
  | none =>
    simp only [haveSameDOI, hd]
    constructor
    · intro h; exact Bool.noConfusion h
    · rintro ⟨d, hds, _⟩; exact Option.noConfusion hds
  | some d =>
    simp only [haveSameDOI, hd, decide_eq_true_eq]
    constructor
    · intro h; exact ⟨d, rfl, h⟩
    · rintro ⟨d2, hd2, hc⟩
      have hdd : d2 = d := (Option.some.inj hd2).symm
      subst hdd
      exact hc

theorem simQ_symm (a b : String) : simQ a b = simQ b a := by
  unfold simQ
  rw [lev_symm, Nat.max_comm]

theorem foldl_add_eq_sum (l : List ℝ) :
    l.foldl (fun a b => a + b) 0 = l.sum := by
  induction l with
  | nil => simp
  | cons x l ih =>
    simp only [List.foldl_cons, List.sum_cons]
    rw [foldl_add_shift, ih]
    ring

/-- A target record with every field absent, used to exercise the
all-measures-missing corner of the engine. -/
def targetAllAbsent : TargetRecord := ⟨none, none, none, none, none⟩

/-- A candidate record with every field absent. -/
def candidateAllAbsent : CandidateRecord := ⟨none, none, none, none, none⟩

/-- C1 (amended): for every target and non-empty candidate sequence where
no candidate fires an exact-identifier rule and every sub-measure is
non-computable for every candidate, the engine returns `best = null` with
confidence 0 — not the first candidate: each candidate's fused confidence
is the `NaN` of `0/0`, the `NaN > best_confidence` update test is false,
and the running best stays `null`. -/
theorem c1_all_measures_missing (target : TargetRecord) (l : List CandidateRecord)
    (_hne : l ≠ [])
    (hnf : ∀ c ∈ l, haveSameHalID target c = false ∧ haveSameDOI target c = false)
    (hnm : ∀ c ∈ l, computeTitleSimilarity target c = none ∧
      computeAuthorsSimilarity target c = none ∧ computeDateSimilarity target c = none) :
    findCorrespondingPublication target l = ⟨none, 0⟩ := by
  unfold findCorrespondingPublication
  apply findAux_skip_all
  intro c hc
  obtain ⟨h1, h2⟩ := hnf c hc
  obtain ⟨m1, m2, m3⟩ := hnm c hc
  refine ⟨h1, h2, ?_⟩
  unfold fusedConfidence validMeasures measures
  rw [m1, m2, m3]
  rfl

/-- Witness for C1 at an all-absent target and single all-absent
candidate. -/
theorem c1_all_measures_missing_witness :
    findCorrespondingPublication targetAllAbsent [candidateAllAbsent] = ⟨none, 0⟩ :=
  c1_all_measures_missing targetAllAbsent [candidateAllAbsent] (by simp)
    (by intro c hc
        rw [List.mem_singleton] at hc
        subst hc
        exact ⟨rfl, rfl⟩)
    (by intro c hc
        rw [List.mem_singleton] at hc
        subst hc
        exact ⟨rfl, rfl, rfl⟩)

/-- Counterexample to C1 as stated: on a non-empty candidate sequence
where no exact-identifier rule fires and every sub-measure is
non-computable, the engine does not return the first candidate as `best`;
it returns `best = null` (with confidence 0). -/
theorem c1_counterexample :
    haveSameHalID targetAllAbsent candidateAllAbsent = false ∧
    haveSameDOI targetAllAbsent candidateAllAbsent = false ∧
    computeTitleSimilarity targetAllAbsent candidateAllAbsent = none ∧
    computeAuthorsSimilarity targetAllAbsent candidateAllAbsent = none ∧
    computeDateSimilarity targetAllAbsent candidateAllAbsent = none ∧
    findCorrespondingPublication targetAllAbsent [candidateAllAbsent] = ⟨none, 0⟩ ∧
    (findCorrespondingPublication targetAllAbsent [candidateAllAbsent]).best ≠
      some candidateAllAbsent := by
  refine ⟨rfl, rfl, rfl, rfl, rfl, rfl, ?_⟩
  intro h
  exact Option.noConfusion h

/-- C2 (amended): the returned confidence is in `[0,1]`; if `best` is
null the confidence is 0; if an identifier short-circuit fires the
confidence is exactly `1.0`; `best` is null if and only if the confidence
is 0 (also for some non-empty candidate sequences, see the
counterexample); and an empty candidate sequence yields `{null, 0}`. -/
theorem c2_result_invariants (target : TargetRecord) (l : List CandidateRecord) :
    (0 ≤ (findCorrespondingPublication target l).confidence ∧
      (findCorrespondingPublication target l).confidence ≤ 1) ∧
    ((findCorrespondingPublication target l).best = none →
      (findCorrespondingPublication target l).confidence = 0) ∧
    ((∃ c ∈ l, haveSameHalID target c = true ∨ haveSameDOI target c = true) →
      (findCorrespondingPublication target l).confidence = 1) ∧
    ((findCorrespondingPublication target l).best = none ↔
      (findCorrespondingPublication target l).confidence = 0) ∧
    (l = [] → findCorrespondingPublication target l = ⟨none, 0⟩) := by
  have hinv := findAux_inv target l none 0 le_rfl zero_le_one
    ⟨fun _ => rfl, fun _ => rfl⟩
  refine ⟨⟨hinv.1, hinv.2.1⟩, fun h => (hinv.2.2).mp h, ?_, hinv.2.2, ?_⟩
  · intro hex
    exact findAux_fire_exists target l none 0 hex
  · intro h
    subst h
    rfl

/-- A target whose only populated field is a one-letter title. -/
def targetTitleA : TargetRecord := ⟨none, none, some (Sum.inl "a"), none, none⟩

/-- A candidate whose only populated field is a different one-letter
title. -/
def candidateTitleB : CandidateRecord := ⟨none, none, some "b", none, none⟩

/-- A target and candidate sharing the DOI `10.1/x`. -/
def targetDoiX : TargetRecord := ⟨none, some "10.1/x", none, none, none⟩

/-- Candidate carrying the DOI `10.1/x`. -/
def candidateDoiX : CandidateRecord := ⟨none, some "10.1/x", none, none, none⟩

/-- Witness for C2 at a firing input: with a shared DOI the confidence is
exactly 1, in range, and `best` is not null. -/
theorem c2_result_invariants_witness :
    (findCorrespondingPublication targetDoiX [candidateDoiX]).confidence = 1 ∧
    (0 ≤ (findCorrespondingPublication targetDoiX [candidateDoiX]).confidence ∧
      (findCorrespondingPublication targetDoiX [candidateDoiX]).confidence ≤ 1) := by
  have h := c2_result_invariants targetDoiX [candidateDoiX]
  refine ⟨h.2.2.1 ⟨candidateDoiX, List.mem_singleton.mpr rfl, Or.inr (by decide)⟩, h.1⟩

/-- Counterexample to C2 as stated: a non-empty candidate sequence can
still produce `best = null` (the only candidate's fused confidence is 0,
which is not strictly greater than the initial best confidence 0), so
"best is null iff confidence is 0 and the candidate sequence was empty"
fails in the only-if direction. -/
theorem c2_counterexample :
    (findCorrespondingPublication targetTitleA [candidateTitleB]).best = none ∧
    (findCorrespondingPublication targetTitleA [candidateTitleB]).confidence = 0 ∧
    ([candidateTitleB] : List CandidateRecord) ≠ [] := by
  have hsim : simQ "a" "b" = 0 := by
    unfold simQ
    rw [show lev "a".toList "b".toList = 1 from by decide]
    norm_num [String.length]
  have htitle : computeTitleSimilarity targetTitleA candidateTitleB = some 0 := by
    simp only [computeTitleSimilarity, targetTitleA, candidateTitleB]
    rw [if_neg (by decide), if_neg (by decide)]
    unfold stringSimilarity
    rw [if_neg (by decide), hsim]
  have hfc : fusedConfidence targetTitleA candidateTitleB = some 0 := by
    unfold fusedConfidence validMeasures measures
    rw [htitle]
    rw [show computeAuthorsSimilarity targetTitleA candidateTitleB = none from rfl]
    rw [show computeDateSimilarity targetTitleA candidateTitleB = none from rfl]
    simp
  have hfind : findCorrespondingPublication targetTitleA [candidateTitleB] = ⟨none, 0⟩ := by
    unfold findCorrespondingPublication
    rw [findAux_cons_valid targetTitleA candidateTitleB [] none 0 0 rfl rfl hfc,
      if_neg (lt_irrefl 0), findAux_nil]
  rw [hfind]
  exact ⟨rfl, rfl, by simp⟩

/-- C3: if some candidate satisfies an exact-identifier rule — stripped
HAL ids non-empty and equal, or DOIs present and string-equal — the
engine returns the first such candidate with confidence exactly 1.0,
whatever the other fields hold; and stripping makes `hal-000111v2` equal
`hal-000111`. -/
theorem c3_exact_match_rules :
    (∀ (target : TargetRecord) (l1 : List CandidateRecord) (c : CandidateRecord)
        (l2 : List CandidateRecord),
      (∀ c2 ∈ l1, haveSameHalID target c2 = false ∧ haveSameDOI target c2 = false) →
      ((∃ s s2, target.halId_s = some s ∧ c.hal = some s2 ∧
          stripVersion s ≠ "" ∧ stripVersion s = stripVersion s2) ∨
        (∃ d, target.doiId_s = some d ∧ c.doi = some d)) →
      findCorrespondingPublication target (l1 ++ c :: l2) = ⟨some c, 1⟩) ∧
    stripVersion "hal-000111v2" = stripVersion "hal-000111" := by
  constructor
  · intro target l1 c l2 hnf hcond
    unfold findCorrespondingPublication
    apply findAux_fire_first target l1 c l2 none 0 hnf
    rcases hcond with h | h
    · exact Or.inl ((haveSameHalID_iff target c).mpr h)
    · exact Or.inr ((haveSameDOI_iff target c).mpr h)
  · decide

/-- Target holding the versioned HAL id `hal-000111v2` and a title shared
with no candidate. -/
def targetHal111 : TargetRecord :=
  ⟨some "hal-000111v2", none, some (Sum.inl "Fast Graphs"), none, none⟩

/-- A candidate with an unrelated HAL id. -/
def candidateOtherHal : CandidateRecord := ⟨some "hal-999", none, none, none, none⟩

/-- The candidate carrying the unversioned HAL id `hal-000111` and a
dissimilar title. -/
def candidateHal111 : CandidateRecord :=
  ⟨some "hal-000111", none, some "Unrelated", none, none⟩

/-- A later candidate that would also match `hal-000111` (as
`hal-000111v3`), but is never inspected. -/
def candidateHal111v3 : CandidateRecord := ⟨some "hal-000111v3", none, none, none, none⟩

/-- Witness for C3: `hal-000111v2` matches the candidate with
`hal-000111` after one non-matching candidate, and the later duplicate is
ignored. -/
theorem c3_exact_match_rules_witness :
    findCorrespondingPublication targetHal111
      ([candidateOtherHal] ++ candidateHal111 :: [candidateHal111v3]) =
      ⟨some candidateHal111, 1⟩ :=
  c3_exact_match_rules.1 targetHal111 [candidateOtherHal] candidateHal111
    [candidateHal111v3]
    (by intro c2 hc2
        rw [List.mem_singleton] at hc2
        subst hc2
        exact ⟨by decide, by decide⟩)
    (Or.inl ⟨"hal-000111v2", "hal-000111", rfl, rfl, by decide, by decide⟩)

/-- C9: when target and candidate both carry the empty string as their
alternate identifier (an input the interface contract forbids), the DOI
rule `targetDOI != null && targetDOI === candidateDOI` fires and the
candidate is returned with confidence 1.0. -/
theorem c9_empty_doi_fires (target : TargetRecord) (c : CandidateRecord)
    (l : List CandidateRecord) (ht : target.doiId_s = some "") (hc : c.doi = some "") :
    haveSameDOI target c = true ∧
    findCorrespondingPublication target (c :: l) = ⟨some c, 1⟩ := by
  have hdoi : haveSameDOI target c = true := by
    rw [haveSameDOI_iff]
    exact ⟨"", ht, hc⟩
  refine ⟨hdoi, ?_⟩
  unfold findCorrespondingPublication
  exact findAux_cons_fire target c l none 0 (Or.inr hdoi)

/-- Target whose alternate identifier is the empty string. -/
def targetEmptyDoi : TargetRecord := ⟨none, some "", none, none, none⟩

/-- Candidate whose alternate identifier is the empty string. -/
def candidateEmptyDoi : CandidateRecord := ⟨none, some "", none, none, none⟩

/-- Witness for C9 at concrete records with empty-string DOIs on both
sides. -/
theorem c9_empty_doi_fires_witness :
    haveSameDOI targetEmptyDoi candidateEmptyDoi = true ∧
    findCorrespondingPublication targetEmptyDoi [candidateEmptyDoi] =
      ⟨some candidateEmptyDoi, 1⟩ :=
  c9_empty_doi_fires targetEmptyDoi candidateEmptyDoi [] rfl rfl

/-- C5: the engine is a single forward pass in supplied order with
first-seen tie-breaking: the first candidate firing an exact-identifier
rule is returned with confidence 1 whatever follows it; appending a
candidate whose fused confidence does not strictly exceed the running
best leaves the result unchanged (ties keep the earlier candidate); and
appending one whose fused confidence strictly exceeds it makes that
candidate the new best. -/
theorem c5_single_pass_first_seen :
    (∀ (target : TargetRecord) (l1 : List CandidateRecord) (c : CandidateRecord)
        (l2 : List CandidateRecord),
      (∀ c2 ∈ l1, haveSameHalID target c2 = false ∧ haveSameDOI target c2 = false) →
      (haveSameHalID target c = true ∨ haveSameDOI target c = true) →
      findCorrespondingPublication target (l1 ++ c :: l2) = ⟨some c, 1⟩) ∧
    (∀ (target : TargetRecord) (l : List CandidateRecord) (c : CandidateRecord) (x : ℝ),
      (∀ c2 ∈ l, haveSameHalID target c2 = false ∧ haveSameDOI target c2 = false) →
      haveSameHalID target c = false → haveSameDOI target c = false →
      fusedConfidence target c = some x →
      x ≤ (findCorrespondingPublication target l).confidence →
      findCorrespondingPublication target (l ++ [c]) =
        findCorrespondingPublication target l) ∧
    (∀ (target : TargetRecord) (l : List CandidateRecord) (c : CandidateRecord) (x : ℝ),
      (∀ c2 ∈ l, haveSameHalID target c2 = false ∧ haveSameDOI target c2 = false) →
      haveSameHalID target c = false → haveSameDOI target c = false →
      fusedConfidence target c = some x →
      (findCorrespondingPublication target l).confidence < x →
      findCorrespondingPublication target (l ++ [c]) = ⟨some c, x⟩) := by
  refine ⟨?_, ?_, ?_⟩
  · intro target l1 c l2 hnf hfire
    unfold findCorrespondingPublication
    exact findAux_fire_first target l1 c l2 none 0 hnf hfire
  · intro target l c x hnf h1 h2 hfc hle
    unfold findCorrespondingPublication at hle ⊢
    rw [findAux_append target l [c] none 0 hnf,
      findAux_cons_valid target c [] _ _ x h1 h2 hfc,
      if_neg (not_lt.mpr hle), findAux_nil]
  · intro target l c x hnf h1 h2 hfc hlt
    unfold findCorrespondingPublication at hlt ⊢
    rw [findAux_append target l [c] none 0 hnf,
      findAux_cons_valid target c [] _ _ x h1 h2 hfc,
      if_pos hlt, findAux_nil]

/-- Target with the two-letter title `ab` and nothing else. -/
def targetTitleAB : TargetRecord := ⟨none, none, some (Sum.inl "ab"), none, none⟩

/-- First candidate titled `ab`. -/
def candidateAB1 : CandidateRecord := ⟨none, none, some "ab", none, none⟩

/-- Second candidate titled `ab`, distinguished by an (unused, since the
target has no alternate identifier) DOI field. -/
def candidateAB2 : CandidateRecord := ⟨none, some "10.2/y", some "ab", none, none⟩

theorem fusedConfidence_AB1 : fusedConfidence targetTitleAB candidateAB1 = some 1 := by
  have htit : computeTitleSimilarity targetTitleAB candidateAB1 = some 1 := by
    simp only [computeTitleSimilarity, targetTitleAB, candidateAB1]
    rw [if_neg (by decide), if_neg (by decide)]
    unfold stringSimilarity
    rw [if_neg (by decide), simQ_self]
  unfold fusedConfidence validMeasures measures
  rw [htit,
    show computeAuthorsSimilarity targetTitleAB candidateAB1 = none from rfl,
    show computeDateSimilarity targetTitleAB candidateAB1 = none from rfl]
  simp

theorem fusedConfidence_AB2 : fusedConfidence targetTitleAB candidateAB2 = some 1 := by
  have htit : computeTitleSimilarity targetTitleAB candidateAB2 = some 1 := by
    simp only [computeTitleSimilarity, targetTitleAB, candidateAB2]
    rw [if_neg (by decide), if_neg (by decide)]
    unfold stringSimilarity
    rw [if_neg (by decide), simQ_self]
  unfold fusedConfidence validMeasures measures
  rw [htit,
    show computeAuthorsSimilarity targetTitleAB candidateAB2 = none from rfl,
    show computeDateSimilarity targetTitleAB candidateAB2 = none from rfl]
  simp

/-- Witness for C5: the firing candidate `hal-000111` wins mid-list; a
tied second candidate (both fused confidences are 1) leaves the earlier
winner in place; a first candidate strictly above the initial 0 becomes
the best. -/
theorem c5_single_pass_first_seen_witness :
    findCorrespondingPublication targetHal111
      ([candidateOtherHal] ++ candidateHal111 :: [candidateHal111v3]) =
      ⟨some candidateHal111, 1⟩ ∧
    findCorrespondingPublication targetTitleAB [candidateAB1] =
      ⟨some candidateAB1, 1⟩ ∧
    findCorrespondingPublication targetTitleAB ([candidateAB1] ++ [candidateAB2]) =
      findCorrespondingPublication targetTitleAB [candidateAB1] := by
  have hnf1 : ∀ c2 ∈ ([candidateOtherHal] : List CandidateRecord),
      haveSameHalID targetHal111 c2 = false ∧ haveSameDOI targetHal111 c2 = false := by
    intro c2 hc2
    rw [List.mem_singleton] at hc2
    subst hc2
    exact ⟨by decide, by decide⟩
  have hpart1 := c5_single_pass_first_seen.1 targetHal111 [candidateOtherHal]
    candidateHal111 [candidateHal111v3] hnf1 (Or.inl (by decide))
  have hfirst : findCorrespondingPublication targetTitleAB ([] ++ [candidateAB1]) =
      ⟨some candidateAB1, 1⟩ :=
    c5_single_pass_first_seen.2.2 targetTitleAB [] candidateAB1 1 (by intro c2 hc2; simp at hc2)
      rfl rfl fusedConfidence_AB1 (by norm_num [findCorrespondingPublication, findAux_nil])
  have hfirst2 : findCorrespondingPublication targetTitleAB [candidateAB1] =
      ⟨some candidateAB1, 1⟩ := by
    rw [← hfirst]
    rfl
  have hnf2 : ∀ c2 ∈ ([candidateAB1] : List CandidateRecord),
      haveSameHalID targetTitleAB c2 = false ∧ haveSameDOI targetTitleAB c2 = false := by
    intro c2 hc2
    rw [List.mem_singleton] at hc2
    subst hc2
    exact ⟨by decide, by decide⟩
  have htie := c5_single_pass_first_seen.2.1 targetTitleAB [candidateAB1] candidateAB2 1
    hnf2 (by decide) (by decide) fusedConfidence_AB2 (by rw [hfirst2])
  exact ⟨hpart1, hfirst2, htie⟩

/-- C6 (amended): the string-similarity primitive is symmetric for all
strings; whenever at least one input is non-empty it returns the number
`1 - levenshtein(str1, str2) / max(len str1, len str2)`, which lies in
`[0,1]` and equals exactly 1 for equal (non-empty) strings; when both
inputs are empty the source divides `0/0` and yields `NaN` instead of
1.0 (see the counterexample). -/
theorem c6_string_similarity_props :
    (∀ a b : String, stringSimilarity a b = stringSimilarity b a) ∧
    (∀ a b : String, a ≠ "" ∨ b ≠ "" →
      stringSimilarity a b =
        some (1 - ((lev a.toList b.toList : ℚ) / ((max a.length b.length : ℕ) : ℚ))) ∧
      0 ≤ simQ a b ∧ simQ a b ≤ 1) ∧
    (∀ a : String, a ≠ "" → stringSimilarity a a = some 1) := by
  refine ⟨?_, ?_, ?_⟩
  · intro a b
    by_cases h : a = "" ∧ b = ""
    · unfold stringSimilarity
      rw [if_pos h, if_pos ⟨h.2, h.1⟩]
    · unfold stringSimilarity
      rw [if_neg h, if_neg (fun h2 => h ⟨h2.2, h2.1⟩), simQ_symm]
  · intro a b h
    have hne : ¬(a = "" ∧ b = "") := by tauto
    unfold stringSimilarity
    rw [if_neg hne]
    exact ⟨rfl, simQ_range a b h⟩
  · intro a ha
    unfold stringSimilarity
    rw [if_neg (fun h2 => ha h2.1), simQ_self]

/-- Counterexample to C6 as stated: on the pair of empty strings the
source computes `1 - 0/0 = NaN`, so the similarity of two equal strings
is not 1.0 there, and the value lies outside `[0,1]`. -/
theorem c6_counterexample :
    stringSimilarity "" "" = none ∧ stringSimilarity "" "" ≠ some 1 := by
  refine ⟨rfl, ?_⟩
  intro h
  exact Option.noConfusion h

/-- Witness for C6 on concrete strings. -/
theorem c6_string_similarity_props_witness :
    stringSimilarity "ab" "b" = stringSimilarity "b" "ab" ∧
    stringSimilarity "ab" "ab" = some 1 ∧
    (0 ≤ simQ "ab" "b" ∧ simQ "ab" "b" ≤ 1) :=
  ⟨c6_string_similarity_props.1 "ab" "b",
   c6_string_similarity_props.2.2 "ab" (by decide),
   (c6_string_similarity_props.2.1 "ab" "b" (Or.inl (by decide))).2⟩

theorem parseDate_ne_empty (s : String) (d : ℤ) (h : parseDate s = some d) :
    s ≠ "" := by
  intro he
  subst he
  exact Option.noConfusion h

theorem computeDateSimilarity_eq (target : TargetRecord) (candidate : CandidateRecord)
    (ts cs : String) (d1 d2 : ℤ)
    (hts : target.publicationDate_s = some ts) (hcs : candidate.date = some cs)
    (hp1 : parseDate ts = some d1) (hp2 : parseDate cs = some d2) :
    computeDateSimilarity target candidate =
      some (Real.exp (-(((d2 - d1).natAbs : ℝ)) / 150)) := by
  simp only [computeDateSimilarity, hts, hcs]
  rw [if_neg (by
      push_neg
      exact ⟨parseDate_ne_empty ts d1 hp1, parseDate_ne_empty cs d2 hp2⟩),
    hp1, hp2]

/-- C7: when both dates are present and parseable the date similarity is
`exp(-|difference_in_days| / 150)`; it is symmetric in the two dates,
equals exactly 1 for identical dates, and is strictly decreasing in the
absolute day difference. -/
theorem c7_date_similarity_props (target target2 : TargetRecord)
    (candidate candidate2 : CandidateRecord) (ts cs : String) (d1 d2 : ℤ)
    (hts : target.publicationDate_s = some ts) (hcs : candidate.date = some cs)
    (hp1 : parseDate ts = some d1) (hp2 : parseDate cs = some d2) :
    computeDateSimilarity target candidate =
      some (Real.exp (-(((d2 - d1).natAbs : ℝ)) / 150)) ∧
    (target2.publicationDate_s = some cs → candidate2.date = some ts →
      computeDateSimilarity target2 candidate2 =
        computeDateSimilarity target candidate) ∧
    (d1 = d2 → computeDateSimilarity target candidate = some 1) ∧
    (∀ (target3 : TargetRecord) (candidate3 : CandidateRecord) (ts3 cs3 : String)
        (e1 e2 : ℤ),
      target3.publicationDate_s = some ts3 → candidate3.date = some cs3 →
      parseDate ts3 = some e1 → parseDate cs3 = some e2 →
      (d2 - d1).natAbs < (e2 - e1).natAbs →
      ∃ r r3, computeDateSimilarity target candidate = some r ∧
        computeDateSimilarity target3 candidate3 = some r3 ∧ r3 < r) := by
  have hval := computeDateSimilarity_eq target candidate ts cs d1 d2 hts hcs hp1 hp2
  refine ⟨hval, ?_, ?_, ?_⟩
  · intro h2t h2c
    have hval2 := computeDateSimilarity_eq target2 candidate2 cs ts d2 d1 h2t h2c hp2 hp1
    rw [hval, hval2]
    have habs : (d1 - d2).natAbs = (d2 - d1).natAbs := by omega
    rw [habs]
  · intro heq
    subst heq
    rw [hval]
    norm_num
  · intro target3 candidate3 ts3 cs3 e1 e2 h3t h3c hp3 hp4 hlt
    have hval3 := computeDateSimilarity_eq target3 candidate3 ts3 cs3 e1 e2 h3t h3c hp3 hp4
    refine ⟨_, _, hval, hval3, ?_⟩
    rw [Real.exp_lt_exp]
    have hcast : (((d2 - d1).natAbs : ℝ)) < (((e2 - e1).natAbs : ℝ)) := by
      exact_mod_cast hlt
    linarith

/-- Target dated 2020-06-15. -/
def targetJun15 : TargetRecord := ⟨none, none, none, none, some "2020-06-15"⟩

/-- Candidate dated 2020-06-20. -/
def candidateJun20 : CandidateRecord := ⟨none, none, none, none, some "2020-06-20"⟩

/-- Target dated 2020-01-01. -/
def targetJan1 : TargetRecord := ⟨none, none, none, none, some "2020-01-01"⟩

/-- Candidate dated 2020-12-31. -/
def candidateDec31 : CandidateRecord := ⟨none, none, none, none, some "2020-12-31"⟩

/-- Witness for C7: the 5-day gap yields `exp(-5/150)` and beats the
365-day gap. -/
theorem c7_date_similarity_props_witness :
    computeDateSimilarity targetJun15 candidateJun20 =
      some (Real.exp (-((((18433 : ℤ) - 18428).natAbs : ℝ)) / 150)) ∧
    (∃ r r3, computeDateSimilarity targetJun15 candidateJun20 = some r ∧
      computeDateSimilarity targetJan1 candidateDec31 = some r3 ∧ r3 < r) := by
  have h := c7_date_similarity_props targetJun15 targetJun15 candidateJun20
    candidateJun20 "2020-06-15" "2020-06-20" 18428 18433 rfl rfl
    (by decide) (by decide)
  exact ⟨h.1, h.2.2.2 targetJan1 candidateDec31 "2020-01-01" "2020-12-31"
    18262 18627 rfl rfl (by decide) (by decide) (by decide)⟩

/-- C8: an unparseable date-like string on either side never raises: the
date sub-measure is the `NaN` sentinel (`none`), so it is excluded from
the fusion filter, and the fused confidence is still computed from the
remaining computable sub-measures (title, authors, authors). -/
theorem c8_unparseable_date (target : TargetRecord) (candidate : CandidateRecord)
    (h : (∃ ts, target.publicationDate_s = some ts ∧ parseDate ts = none) ∨
      (∃ cs, candidate.date = some cs ∧ parseDate cs = none)) :
    computeDateSimilarity target candidate = none ∧
    validMeasures target candidate =
      List.filterMap id
        [(computeTitleSimilarity target candidate).map (fun (q : ℚ) => (q : ℝ)),
         (computeAuthorsSimilarity target candidate).map (fun (q : ℚ) => (q : ℝ)),
         (computeAuthorsSimilarity target candidate).map (fun (q : ℚ) => (q : ℝ))] ∧
    fusedConfidence target candidate =
      (if (List.filterMap id
            [(computeTitleSimilarity target candidate).map (fun (q : ℚ) => (q : ℝ)),
             (computeAuthorsSimilarity target candidate).map (fun (q : ℚ) => (q : ℝ)),
             (computeAuthorsSimilarity target candidate).map
               (fun (q : ℚ) => (q : ℝ))]).isEmpty then none
       else some ((List.filterMap id
            [(computeTitleSimilarity target candidate).map (fun (q : ℚ) => (q : ℝ)),
             (computeAuthorsSimilarity target candidate).map (fun (q : ℚ) => (q : ℝ)),
             (computeAuthorsSimilarity target candidate).map
               (fun (q : ℚ) => (q : ℝ))]).sum /
          ((List.filterMap id
            [(computeTitleSimilarity target candidate).map (fun (q : ℚ) => (q : ℝ)),
             (computeAuthorsSimilarity target candidate).map (fun (q : ℚ) => (q : ℝ)),
             (computeAuthorsSimilarity target candidate).map
               (fun (q : ℚ) => (q : ℝ))]).length : ℝ))) := by
  have hdate : computeDateSimilarity target candidate = none := by
    rcases h with ⟨ts, hts, hpn⟩ | ⟨cs, hcs, hpn⟩
    · cases hcd : candidate.date with
      | none => simp only [computeDateSimilarity, hts, hcd]
      | some cs =>
        simp only [computeDateSimilarity, hts, hcd]
        by_cases he : ts = "" ∨ cs = ""
        · rw [if_pos he]
        · rw [if_neg he, hpn]
    · cases htd : target.publicationDate_s with
      | none => simp only [computeDateSimilarity, htd]
      | some ts =>
        simp only [computeDateSimilarity, htd, hcs]
        by_cases he : ts = "" ∨ cs = ""
        · rw [if_pos he]
        · rw [if_neg he, hpn]
          cases parseDate ts <;> rfl
  have hvm : validMeasures target candidate =
      List.filterMap id
        [(computeTitleSimilarity target candidate).map (fun (q : ℚ) => (q : ℝ)),
         (computeAuthorsSimilarity target candidate).map (fun (q : ℚ) => (q : ℝ)),
         (computeAuthorsSimilarity target candidate).map (fun (q : ℚ) => (q : ℝ))] := by
    unfold validMeasures measures
    rw [hdate]
    cases computeTitleSimilarity target candidate <;>
      cases computeAuthorsSimilarity target candidate <;> rfl
  refine ⟨hdate, hvm, ?_⟩
  simp only [fusedConfidence]
  rw [hvm, foldl_add_eq_sum]

/-- Target with a title and an unparseable date-like string. -/
def targetBadDate : TargetRecord :=
  ⟨none, none, some (Sum.inl "ab"), none, some "not-a-date"⟩

/-- Candidate with the same title and a well-formed date. -/
def candidateGoodDate : CandidateRecord :=
  ⟨none, none, some "ab", none, some "2020-06-15"⟩

/-- Witness for C8: the unparseable target date is dropped and fusion
proceeds on the remaining title measure. -/
theorem c8_unparseable_date_witness :
    computeDateSimilarity targetBadDate candidateGoodDate = none ∧
    validMeasures targetBadDate candidateGoodDate =
      List.filterMap id
        [(computeTitleSimilarity targetBadDate candidateGoodDate).map
           (fun (q : ℚ) => (q : ℝ)),
         (computeAuthorsSimilarity targetBadDate candidateGoodDate).map
           (fun (q : ℚ) => (q : ℝ)),
         (computeAuthorsSimilarity targetBadDate candidateGoodDate).map
           (fun (q : ℚ) => (q : ℝ))] := by
  have h := c8_unparseable_date targetBadDate candidateGoodDate
    (Or.inl ⟨"not-a-date", rfl, by decide⟩)
  exact ⟨h.1, h.2.1⟩

/-- C10: a target whose titles field is the empty array is truthy in the
source, so the title sub-measure is the max-reduce over zero language
variants with seed 0 — the number 0, not the `NaN` sentinel — and this 0
enters the fusion average, strictly lowering the candidate's confidence
below the mean of the remaining measures (whenever those sum to a
positive value). -/
theorem c10_empty_title_array (target : TargetRecord) (candidate : CandidateRecord)
    (ct : String) (htt : target.title_s = some (Sum.inr []))
    (hct : candidate.title = some ct) (hce : ct ≠ "") :
    computeTitleSimilarity target candidate = some 0 ∧
    validMeasures target candidate =
      (0 : ℝ) :: List.filterMap id
        [(computeAuthorsSimilarity target candidate).map (fun (q : ℚ) => (q : ℝ)),
         computeDateSimilarity target candidate,
         (computeAuthorsSimilarity target candidate).map (fun (q : ℚ) => (q : ℝ))] ∧
    ((0 : ℝ) ∈ validMeasures target candidate) ∧
    (∀ rest : List ℝ,
      rest = List.filterMap id
        [(computeAuthorsSimilarity target candidate).map (fun (q : ℚ) => (q : ℝ)),
         computeDateSimilarity target candidate,
         (computeAuthorsSimilarity target candidate).map (fun (q : ℚ) => (q : ℝ))] →
      0 < rest.sum →
      ∃ x, fusedConfidence target candidate = some x ∧
        x < rest.sum / (rest.length : ℝ)) := by
  have htit : computeTitleSimilarity target candidate = some 0 := by
    simp only [computeTitleSimilarity, htt, hct]
    rw [if_neg hce]
    rfl
  have hvm : validMeasures target candidate =
      (0 : ℝ) :: List.filterMap id
        [(computeAuthorsSimilarity target candidate).map (fun (q : ℚ) => (q : ℝ)),
         computeDateSimilarity target candidate,
         (computeAuthorsSimilarity target candidate).map (fun (q : ℚ) => (q : ℝ))] := by
    unfold validMeasures measures
    rw [htit]
    simp only [Option.map_some', Rat.cast_zero]
    rfl
  refine ⟨htit, hvm, ?_, ?_⟩
  · rw [hvm]
    exact List.mem_cons_self 0 _
  · intro rest hrest hsum
    have hrne : rest ≠ [] := by
      intro hr
      rw [hr] at hsum
      simp at hsum
    have hlen : 0 < rest.length := List.length_pos.mpr hrne
    have hlenR : 0 < (rest.length : ℝ) := by exact_mod_cast hlen
    have hlenR2 : (rest.length : ℝ) < ((rest.length : ℝ) + 1) := by linarith
    refine ⟨rest.sum / ((rest.length : ℝ) + 1), ?_, ?_⟩
    · simp only [fusedConfidence]
      rw [hvm, ← hrest]
      rw [if_neg (by simp)]
      rw [foldl_add_eq_sum]
      simp only [List.sum_cons, List.length_cons, zero_add]
      push_cast
      ring_nf
    · exact div_lt_div_of_pos_left hsum hlenR hlenR2

/-- Target with an empty title array and one author. -/
def targetEmptyTitles : TargetRecord :=
  ⟨none, none, some (Sum.inr []), some ["A"], none⟩

/-- Candidate with a title and the same author. -/
def candidateTitledA : CandidateRecord := ⟨none, none, some "x", some ["A"], none⟩

/-- Witness for C10: with authors similarity 1 counted twice, the rest
sums to 2 and the fused confidence 2/3 is strictly below 1. -/
theorem c10_empty_title_array_witness :
    computeTitleSimilarity targetEmptyTitles candidateTitledA = some 0 ∧
    (∃ x, fusedConfidence targetEmptyTitles candidateTitledA = some x ∧
      x < (List.filterMap id
        [(computeAuthorsSimilarity targetEmptyTitles candidateTitledA).map
           (fun (q : ℚ) => (q : ℝ)),
         computeDateSimilarity targetEmptyTitles candidateTitledA,
         (computeAuthorsSimilarity targetEmptyTitles candidateTitledA).map
           (fun (q : ℚ) => (q : ℝ))]).sum /
        ((List.filterMap id
        [(computeAuthorsSimilarity targetEmptyTitles candidateTitledA).map
           (fun (q : ℚ) => (q : ℝ)),
         computeDateSimilarity targetEmptyTitles candidateTitledA,
         (computeAuthorsSimilarity targetEmptyTitles candidateTitledA).map
           (fun (q : ℚ) => (q : ℝ))]).length : ℝ)) := by
  have hauth : computeAuthorsSimilarity targetEmptyTitles candidateTitledA = some 1 := by
    simp only [computeAuthorsSimilarity, targetEmptyTitles, candidateTitledA]
    rw [if_neg (by decide), simQ_self]
  have h := c10_empty_title_array targetEmptyTitles candidateTitledA "x" rfl rfl
    (by decide)
  refine ⟨h.1, h.2.2.2 _ rfl ?_⟩
  rw [hauth, show computeDateSimilarity targetEmptyTitles candidateTitledA = none from rfl]
  simp

/-- Scenario-2 target: no identifiers, title array `["Deep Learning for
X"]`, authors `["J Smith"]`, date `2020-06-15`. -/
def targetDeepLearning : TargetRecord :=
  ⟨none, none, some (Sum.inr ["Deep Learning for X"]), some ["J Smith"],
    some "2020-06-15"⟩

/-- Scenario-2 candidate: exact title and authors, date five days off. -/
def candidateDeepLearning : CandidateRecord :=
  ⟨none, none, some "Deep Learning for X", some ["J Smith"], some "2020-06-20"⟩

theorem titleSim_deepLearning :
    computeTitleSimilarity targetDeepLearning candidateDeepLearning = some 1 := by
  simp only [computeTitleSimilarity, targetDeepLearning, candidateDeepLearning]
  rw [if_neg (by decide)]
  simp only [List.map_cons, List.map_nil, List.foldl_cons, List.foldl_nil, simQ_self]
  norm_num

theorem authorsSim_deepLearning :
    computeAuthorsSimilarity targetDeepLearning candidateDeepLearning = some 1 := by
  simp only [computeAuthorsSimilarity, targetDeepLearning, candidateDeepLearning]
  rw [if_neg (by decide), simQ_self]

theorem dateSim_deepLearning :
    computeDateSimilarity targetDeepLearning candidateDeepLearning =
      some (Real.exp (-(5 : ℝ) / 150)) := by
  have h := computeDateSimilarity_eq targetDeepLearning candidateDeepLearning
    "2020-06-15" "2020-06-20" 18428 18433 rfl rfl (by decide) (by decide)
  rw [h]
  norm_num

theorem fusedConfidence_deepLearning :
    fusedConfidence targetDeepLearning candidateDeepLearning =
      some ((1 + 1 + 1 + Real.exp (-(5 : ℝ) / 150)) / 4) := by
  simp only [fusedConfidence, validMeasures, measures, titleSim_deepLearning,
    authorsSim_deepLearning, dateSim_deepLearning, Option.map_some', Rat.cast_one]
  rw [show List.filterMap id
      [some (1 : ℝ), some (1 : ℝ), some (Real.exp (-(5 : ℝ) / 150)), some (1 : ℝ)] =
      [(1 : ℝ), 1, Real.exp (-(5 : ℝ) / 150), 1] from rfl]
  rw [if_neg (by simp)]
  simp only [List.foldl_cons, List.foldl_nil, List.length_cons, List.length_nil]
  norm_num
  ring_nf

/-- C4: the fused confidence is the arithmetic mean of the computable
values among the four slots [title, authors, date, authors] — the author
signal counted twice; on the scenario with exact title, exact authors and
a five-day date gap the engine yields confidence
`(1 + 1 + 1 + exp(-5/150)) / 4 ≈ 0.992`. -/
theorem c4_fusion_weighted_mean :
    (∀ (target : TargetRecord) (candidate : CandidateRecord),
      validMeasures target candidate =
        List.filterMap id
          [(computeTitleSimilarity target candidate).map (fun (q : ℚ) => (q : ℝ)),
           (computeAuthorsSimilarity target candidate).map (fun (q : ℚ) => (q : ℝ)),
           computeDateSimilarity target candidate,
           (computeAuthorsSimilarity target candidate).map (fun (q : ℚ) => (q : ℝ))]) ∧
    (∀ (target : TargetRecord) (candidate : CandidateRecord),
      fusedConfidence target candidate =
        if (validMeasures target candidate).isEmpty then none
        else some ((validMeasures target candidate).sum /
          ((validMeasures target candidate).length : ℝ))) ∧
    findCorrespondingPublication targetDeepLearning [candidateDeepLearning] =
      ⟨some candidateDeepLearning, (1 + 1 + 1 + Real.exp (-(5 : ℝ) / 150)) / 4⟩ ∧
    |(1 + 1 + 1 + Real.exp (-(5 : ℝ) / 150)) / 4 - 0.992| < 1 / 1000 := by
  have he1 : (29 / 30 : ℝ) ≤ Real.exp (-(5 : ℝ) / 150) := by
    have h := Real.add_one_le_exp (-(5 : ℝ) / 150)
    linarith
  have he2 : Real.exp (-(5 : ℝ) / 150) ≤ 30 / 31 := by
    have h := Real.add_one_le_exp ((5 : ℝ) / 150)
    have hpos : (0 : ℝ) < Real.exp ((5 : ℝ) / 150) := Real.exp_pos _
    have hge : (31 / 30 : ℝ) ≤ Real.exp ((5 : ℝ) / 150) := by linarith
    have hinv : (Real.exp ((5 : ℝ) / 150))⁻¹ ≤ (31 / 30 : ℝ)⁻¹ :=
      inv_anti₀ (by norm_num) hge
    rw [show (-(5 : ℝ) / 150) = -((5 : ℝ) / 150) from by ring, Real.exp_neg]
    calc (Real.exp ((5 : ℝ) / 150))⁻¹ ≤ (31 / 30 : ℝ)⁻¹ := hinv
      _ = 30 / 31 := by norm_num
  refine ⟨fun target candidate => rfl, ?_, ?_, ?_⟩
  · intro target candidate
    simp only [fusedConfidence]
    rw [foldl_add_eq_sum]
  · unfold findCorrespondingPublication
    rw [findAux_cons_valid targetDeepLearning candidateDeepLearning [] none 0 _
      rfl rfl fusedConfidence_deepLearning]
    rw [if_pos (by positivity), findAux_nil]
  · rw [abs_lt]
    constructor <;> [skip; skip] <;> nlinarith [he1, he2]
